import Mathlib

/-
Verification of the x86 frame-pointer stack unwinder
(absl/debugging/internal/stacktrace_x86-inl.h).

The embedding fixes the x86_64/Linux build configuration of the header:
the blocks guarded by defined(__i386__) (the vsyscall-trampoline
correction inside NextStackFrame and the top-of-address-space guard
page check) are preprocessed out there, and the machine word is 8 bytes.
CountPushInstructions, which the header compiles only on __i386__, is
embedded separately as the pure byte scanner it is.

External capabilities are modeled as inputs:
  - stack memory is a function from addresses to the machine word
    stored there (the word read by dereferencing a void**),
  - AddressIsReadable is a boolean oracle on addresses,
  - the ucontext is an optional record of the frame-pointer and
    stack-pointer registers (the only registers this configuration
    reads).

Addresses and words are natural numbers (uintptr_t values); a null
pointer is the address 0.
-/

namespace StackTraceX86

/-- Machine word size in bytes for the x86_64 configuration
(sizeof(void*)). -/
def wordSize : Nat := 8

/-- Constant kMaxFrameBytes: stack frames larger than 100,000 bytes are
assumed bogus. -/
def kMaxFrameBytes : Nat := 100000

/-- Constant kMaxUnwind: cap on the dropped-frame counting loop. -/
def kMaxUnwind : Nat := 1000

/-- Constant kMaxBytes: how many instruction bytes of __kernel_vsyscall
CountPushInstructions analyzes before giving up. -/
def kMaxBytes : Nat := 10

/-- The memory the unwinder probes: the machine word stored at each
address, plus the AddressIsReadable oracle. -/
structure Env where
  mem : Nat → Nat
  readable : Nat → Bool

/-- Signal-context registers used by this configuration: the
frame-pointer register (REG_RBP) and the stack-pointer register
(REG_RSP) of the interrupted thread. -/
structure SigCtx where
  bp : Nat
  sp : Nat
deriving DecidableEq

/-- GetFP: returns the stack frame pointer from the signal context, 0 if
unknown (null context, or a platform with no such registers, modeled by
the absent case).  When both registers are available the frame pointer
is sanity checked: it must be at or above the stack pointer and within
kMaxFrameBytes of it; otherwise the stack pointer is returned instead. -/
def GetFP : Option SigCtx → Nat
  | none => 0
  | some uc => if uc.sp ≤ uc.bp ∧ uc.bp - uc.sp ≤ kMaxFrameBytes then uc.bp else uc.sp

/-- NextStackFrame (x86_64 configuration): given the current frame
pointer, read the word stored there as the candidate for the calling
frame, then validate the transition.  Under STRICT_UNWINDING the checks
are skipped when the candidate matches GetFP of a supplied context
(so an alternate signal stack does not end the walk early); otherwise
the candidate must be strictly above the old frame and within
kMaxFrameBytes of it.  In the non-strict mode the candidate must only
be non-null and different from the current frame.  Every candidate must
be word aligned, and in the non-strict mode it must additionally pass
the AddressIsReadable probe.  none models the null return. -/
def NextStackFrame (strict withContext : Bool) (env : Env) (old_fp : Nat)
    (uc : Option SigCtx) : Option Nat :=
  let new_fp := env.mem old_fp
  if strict = true ∧ (withContext = false ∨ uc = none ∨ new_fp ≠ GetFP uc) then
    if new_fp ≤ old_fp then none
    else if kMaxFrameBytes < new_fp - old_fp then none
    else if new_fp % wordSize ≠ 0 then none
    else if strict = false ∧ env.readable new_fp = false then none
    else some new_fp
  else
    if new_fp = 0 then none
    else if new_fp = old_fp then none
    else if new_fp % wordSize ≠ 0 then none
    else if strict = false ∧ env.readable new_fp = false then none
    else some new_fp

/-- Value form of NextStackFrame: the pointer value assigned to the
local next_fp in UnwindImpl, with the null return encoded as 0. -/
def nsfVal (strict withContext : Bool) (env : Env) (old_fp : Nat)
    (uc : Option SigCtx) : Nat :=
  (NextStackFrame strict withContext env old_fp uc).getD 0

/-- Output of the main capture loop of UnwindImpl: the return addresses
written to result[0..n-1], the entries written to sizes[0..n-1]
(empty when frame sizes are not recorded), and the value of fp when the
loop exited. -/
structure LoopOut where
  addrs : List Nat
  sizes : List Nat
  finalFp : Nat
deriving DecidableEq

/-- Main capture loop of UnwindImpl.  depthLeft is max_depth minus the
number of frames already captured; skip is the remaining skip_count.
The fuel argument makes the recursion structural; every executed
iteration decreases depthLeft + skip by exactly one, so calling with
fuel = depthLeft + skip (as UnwindImpl does) reproduces the C loop,
whose guard is fp != null and n < max_depth.  Each iteration first
stops if the return-address slot of the frame reads as null, then
computes next_fp, then either consumes one skip credit or records the
return address (and, when recordSizes, the frame size). -/
def unwindLoop (strict recordSizes withContext : Bool) (env : Env)
    (uc : Option SigCtx) : Nat → Nat → Nat → Nat → LoopOut
  | fp, _depthLeft, _skip, 0 => ⟨[], [], fp⟩
  | fp, depthLeft, skip, fuel + 1 =>
    if fp = 0 ∨ depthLeft = 0 then ⟨[], [], fp⟩
    else if env.mem (fp + wordSize) = 0 then ⟨[], [], fp⟩
    else
      let next := nsfVal strict withContext env fp uc
      if skip = 0 then
        let rest := unwindLoop strict recordSizes withContext env uc next
          (depthLeft - 1) 0 fuel
        ⟨env.mem (fp + wordSize) :: rest.addrs,
         if recordSizes then
           (if fp < next then next - fp else 0) :: rest.sizes
         else rest.sizes,
         rest.finalFp⟩
      else
        unwindLoop strict recordSizes withContext env uc next depthLeft
          (skip - 1) fuel

/-- Dropped-frame counting loop of UnwindImpl: keep stepping from the
frame where the main loop stopped, counting steps, while fp is non-null
and fewer than kMaxUnwind steps were taken.  fuel is kMaxUnwind minus
the steps already taken. -/
def dropLoop (strict withContext : Bool) (env : Env) (uc : Option SigCtx) :
    Nat → Nat → Nat
  | _fp, 0 => 0
  | fp, fuel + 1 =>
    if fp = 0 then 0
    else 1 + dropLoop strict withContext env uc
      (nsfVal strict withContext env fp uc) fuel

/-- Result of UnwindImpl: the return addresses written to the result
array, the frame sizes written to the sizes array, and the value stored
through min_dropped_frames (none when that pointer is null). -/
structure UnwindOut where
  addrs : List Nat
  sizes : List Nat
  dropped : Option Nat
deriving DecidableEq

/-- UnwindImpl: walk the frame chain starting from fp0 (the value of
__builtin_frame_address(0)), capturing up to maxDepth return addresses
after omitting skip frames, with NextStackFrame instantiated at
STRICT_UNWINDING = not IS_STACK_FRAMES in both the capture loop and the
dropped-frame counting loop; when wantDropped (min_dropped_frames
non-null), count up to kMaxUnwind further steps from the frame where
the capture loop stopped.  The returned count n is the length of the
addrs list, which holds exactly the written output slots in order. -/
def UnwindImpl (isStackFrames isWithContext : Bool) (env : Env)
    (uc : Option SigCtx) (fp0 maxDepth skip : Nat) (wantDropped : Bool) :
    UnwindOut :=
  let strict := !isStackFrames
  let r := unwindLoop strict isStackFrames isWithContext env uc fp0 maxDepth
    skip (maxDepth + skip)
  { addrs := r.addrs
    sizes := r.sizes
    dropped :=
      if wantDropped then
        some (dropLoop strict isWithContext env uc r.finalFp kMaxUnwind)
      else none }

/-- CountPushInstructions scan loop.  i is the byte index; budget is
kMaxBytes - i, carried explicitly so the recursion is structural (the C
loop guard is i < kMaxBytes).  none models the assertion-failure paths
(unexpected instruction, scan budget exhausted, or an int 0x80 seen
after a push), each of which returns 0 when assertions are compiled
out.  A 0x89 byte whose successor is not 0xE5 is a generic two-byte
mov between registers: both bytes are consumed and the scan continues. -/
def countPushAux (bytes : Nat → Nat) : Nat → Nat → Nat → Option Nat
  | _i, _result, 0 => none
  | i, result, budget + 1 =>
    if bytes i = 0x89 then
      if bytes (i + 1) = 0xE5 then some 0
      else
        match budget with
        | 0 => none
        | b + 1 => countPushAux bytes (i + 2) result b
    else if bytes i = 0x0F ∧ (bytes (i + 1) = 0x34 ∨ bytes (i + 1) = 0x05) then
      some result
    else if bytes i &&& 0xF0 = 0x50 then
      countPushAux bytes (i + 1) (result + 1) budget
    else if bytes i = 0xCD ∧ bytes (i + 1) = 0x80 then
      if result = 0 then some 0 else none
    else none

/-- CountPushInstructions: count the push-register instructions at the
start of __kernel_vsyscall, given its instruction bytes. -/
def CountPushInstructions (bytes : Nat → Nat) : Option Nat :=
  countPushAux bytes 0 0 kMaxBytes

/-- Iterated frame stepping: the frame pointer value reached after k
assignments fp := next_fp starting from fp. -/
def iterFP (strict withContext : Bool) (env : Env) (uc : Option SigCtx) :
    Nat → Nat → Nat
  | 0, fp => fp
  | k + 1, fp =>
    iterFP strict withContext env uc k (nsfVal strict withContext env fp uc)

/-- The walk from fp reaches, after some number of steps, a frame where
the validator returns none. -/
def stopsAtSomeStep (strict withContext : Bool) (env : Env)
    (uc : Option SigCtx) (fp : Nat) : Prop :=
  ∃ k, NextStackFrame strict withContext env
    (iterFP strict withContext env uc k fp) uc = none

/-! Unfolding equations for the capture loop, one per control path. -/

theorem unwindLoop_fuel_zero (strict recordSizes withContext : Bool)
    (env : Env) (uc : Option SigCtx) (fp d s : Nat) :
    unwindLoop strict recordSizes withContext env uc fp d s 0 = ⟨[], [], fp⟩ :=
  rfl

theorem unwindLoop_stop {strict recordSizes withContext : Bool} {env : Env}
    {uc : Option SigCtx} {fp d s : Nat} (fuel : Nat) (h : fp = 0 ∨ d = 0) :
    unwindLoop strict recordSizes withContext env uc fp d s (fuel + 1)
      = ⟨[], [], fp⟩ := by
  rw [unwindLoop, if_pos h]

theorem unwindLoop_nullret {strict recordSizes withContext : Bool} {env : Env}
    {uc : Option SigCtx} {fp d s : Nat} (fuel : Nat) (h1 : ¬(fp = 0 ∨ d = 0))
    (h2 : env.mem (fp + wordSize) = 0) :
    unwindLoop strict recordSizes withContext env uc fp d s (fuel + 1)
      = ⟨[], [], fp⟩ := by
  rw [unwindLoop, if_neg h1, if_pos h2]

theorem unwindLoop_skip {strict recordSizes withContext : Bool} {env : Env}
    {uc : Option SigCtx} {fp d s : Nat} (fuel : Nat) (h1 : ¬(fp = 0 ∨ d = 0))
    (h2 : env.mem (fp + wordSize) ≠ 0) (hs : s ≠ 0) :
    unwindLoop strict recordSizes withContext env uc fp d s (fuel + 1)
      = unwindLoop strict recordSizes withContext env uc
          (nsfVal strict withContext env fp uc) d (s - 1) fuel := by
  rw [unwindLoop, if_neg h1, if_neg h2]
  exact if_neg hs

theorem unwindLoop_record {strict recordSizes withContext : Bool} {env : Env}
    {uc : Option SigCtx} {fp d : Nat} (fuel : Nat) (h1 : ¬(fp = 0 ∨ d = 0))
    (h2 : env.mem (fp + wordSize) ≠ 0) :
    unwindLoop strict recordSizes withContext env uc fp d 0 (fuel + 1)
      = ⟨env.mem (fp + wordSize) ::
           (unwindLoop strict recordSizes withContext env uc
             (nsfVal strict withContext env fp uc) (d - 1) 0 fuel).addrs,
         (if recordSizes then
            (if fp < nsfVal strict withContext env fp uc then
               nsfVal strict withContext env fp uc - fp else 0) ::
              (unwindLoop strict recordSizes withContext env uc
                (nsfVal strict withContext env fp uc) (d - 1) 0 fuel).sizes
          else
            (unwindLoop strict recordSizes withContext env uc
              (nsfVal strict withContext env fp uc) (d - 1) 0 fuel).sizes),
         (unwindLoop strict recordSizes withContext env uc
           (nsfVal strict withContext env fp uc) (d - 1) 0 fuel).finalFp⟩ := by
  rw [unwindLoop, if_neg h1, if_neg h2]
  exact if_pos rfl

/-! Basic bounds on the capture loop. -/

theorem unwindLoop_length_le (strict recordSizes withContext : Bool)
    (env : Env) (uc : Option SigCtx) :
    ∀ fuel fp d s,
      (unwindLoop strict recordSizes withContext env uc fp d s fuel).addrs.length ≤ d ∧
      (unwindLoop strict recordSizes withContext env uc fp d s fuel).sizes.length ≤ d := by
  intro fuel
  induction fuel with
  | zero =>
    intro fp d s
    rw [unwindLoop_fuel_zero]
    exact ⟨Nat.zero_le d, Nat.zero_le d⟩
  | succ fuel ih =>
    intro fp d s
    by_cases h1 : fp = 0 ∨ d = 0
    · rw [unwindLoop_stop fuel h1]
      exact ⟨Nat.zero_le d, Nat.zero_le d⟩
    · by_cases h2 : env.mem (fp + wordSize) = 0
      · rw [unwindLoop_nullret fuel h1 h2]
        exact ⟨Nat.zero_le d, Nat.zero_le d⟩
      · by_cases hs : s = 0
        · subst hs
          rw [unwindLoop_record fuel h1 h2]
          have hd : d ≠ 0 := fun h => h1 (Or.inr h)
          have hrec := ih (nsfVal strict withContext env fp uc) (d - 1) 0
          constructor
          · simp only [List.length_cons]
            omega
          · by_cases hr : recordSizes = true
            · rw [if_pos hr]
              simp only [List.length_cons]
              omega
            · rw [if_neg hr]
              exact le_trans hrec.2 (Nat.sub_le d 1)
        · rw [unwindLoop_skip fuel h1 h2 hs]
          exact ih (nsfVal strict withContext env fp uc) d (s - 1)

theorem unwindLoop_no_null_addr (strict recordSizes withContext : Bool)
    (env : Env) (uc : Option SigCtx) :
    ∀ fuel fp d s,
      0 ∉ (unwindLoop strict recordSizes withContext env uc fp d s fuel).addrs := by
  intro fuel
  induction fuel with
  | zero =>
    intro fp d s
    rw [unwindLoop_fuel_zero]
    exact List.not_mem_nil 0
  | succ fuel ih =>
    intro fp d s
    by_cases h1 : fp = 0 ∨ d = 0
    · rw [unwindLoop_stop fuel h1]
      exact List.not_mem_nil 0
    · by_cases h2 : env.mem (fp + wordSize) = 0
      · rw [unwindLoop_nullret fuel h1 h2]
        exact List.not_mem_nil 0
      · by_cases hs : s = 0
        · subst hs
          rw [unwindLoop_record fuel h1 h2]
          intro hmem
          rcases List.mem_cons.mp hmem with h | h
          · exact h2 h.symm
          · exact ih (nsfVal strict withContext env fp uc) (d - 1) 0 h
        · rw [unwindLoop_skip fuel h1 h2 hs]
          exact ih (nsfVal strict withContext env fp uc) d (s - 1)

/-- C1: for every max_depth, every skip_count and every stack contents,
UnwindImpl captures at most max_depth frames; the addrs and sizes lists
model exactly the output slots 0..n-1 written by the loop (the returned
count n is the length of addrs), so no slot beyond n-1 is written. -/
theorem unwind_count_within_max_depth (isStackFrames isWithContext : Bool)
    (env : Env) (uc : Option SigCtx) (fp0 maxDepth skip : Nat)
    (wantDropped : Bool) :
    (UnwindImpl isStackFrames isWithContext env uc fp0 maxDepth skip
      wantDropped).addrs.length ≤ maxDepth ∧
    (UnwindImpl isStackFrames isWithContext env uc fp0 maxDepth skip
      wantDropped).sizes.length ≤ maxDepth :=
  unwindLoop_length_le (!isStackFrames) isStackFrames isWithContext env uc
    (maxDepth + skip) fp0 maxDepth skip

/-- Stack used as a concrete input below: three linked frames at
addresses 16, 32 and 48, with return addresses 101, 102, 103, the chain
terminated by a null frame pointer stored at 48. -/
def chainEnv : Env :=
  ⟨fun a =>
    if a = 16 then 32 else if a = 32 then 48 else if a = 48 then 0
    else if a = 24 then 101 else if a = 40 then 102 else if a = 56 then 103
    else 0,
   fun _ => true⟩

/-- Frame addresses of chainEnv, in walk order. -/
def chainF : Nat → Nat := fun i => 16 * (i + 1)

/-- Stack whose innermost frame (at address 8) has a null return-address
slot: the word at 8 + wordSize reads as 0. -/
def nullRetEnv : Env :=
  ⟨fun a => if a = 8 then 64 else 0, fun _ => true⟩

/-- C7: whenever the return-address slot of the current frame reads as
null, the capture loop stops at once, recording and skipping nothing
from that frame on; consequently the null address never appears among
the captured return addresses. -/
theorem null_return_address_stops (isStackFrames isWithContext : Bool)
    (env : Env) (uc : Option SigCtx) (fp0 maxDepth skip fuel : Nat)
    (wantDropped : Bool) :
    (env.mem (fp0 + wordSize) = 0 →
      unwindLoop (!isStackFrames) isStackFrames isWithContext env uc fp0
        maxDepth skip fuel = ⟨[], [], fp0⟩) ∧
    0 ∉ (UnwindImpl isStackFrames isWithContext env uc fp0 maxDepth skip
      wantDropped).addrs := by
  constructor
  · intro h2
    cases fuel with
    | zero => rw [unwindLoop_fuel_zero]
    | succ fuel =>
      by_cases h1 : fp0 = 0 ∨ maxDepth = 0
      · rw [unwindLoop_stop fuel h1]
      · rw [unwindLoop_nullret fuel h1 h2]
  · exact unwindLoop_no_null_addr (!isStackFrames) isStackFrames isWithContext
      env uc (maxDepth + skip) fp0 maxDepth skip

/-- Witness for C7 at a concrete stack: the frame at address 8 of
nullRetEnv has a null return-address slot, so the loop stops with
nothing captured, and no null address is ever output. -/
theorem null_return_address_stops_witness :
    unwindLoop (!false) false false nullRetEnv none 8 5 0 5 = ⟨[], [], 8⟩ ∧
    0 ∉ (UnwindImpl false false nullRetEnv none 8 5 0 false).addrs :=
  ⟨(null_return_address_stops false false nullRetEnv none 8 5 0 5 false).1
      (by decide),
   (null_return_address_stops false false nullRetEnv none 8 5 0 5 false).2⟩

/-- C8: GetFP returns 0 when the signal context is absent; when the
frame-pointer and stack-pointer registers are available it returns the
frame pointer if that is at or above the stack pointer and within
kMaxFrameBytes of it, and otherwise falls back to the stack pointer. -/
theorem getfp_contract :
    GetFP none = 0 ∧
    ∀ uc : SigCtx,
      (uc.sp ≤ uc.bp → uc.bp - uc.sp ≤ kMaxFrameBytes →
        GetFP (some uc) = uc.bp) ∧
      (uc.bp < uc.sp ∨ kMaxFrameBytes < uc.bp - uc.sp →
        GetFP (some uc) = uc.sp) := by
  refine ⟨rfl, fun uc => ⟨fun h1 h2 => ?_, fun h => ?_⟩⟩
  · rw [GetFP, if_pos ⟨h1, h2⟩]
  · rw [GetFP, if_neg]
    rintro ⟨hge, hle⟩
    rcases h with h | h
    · omega
    · omega

/-- Witness for C8 at concrete register values: a plausible frame
pointer (16 over stack pointer 8) is returned as is; an implausible one
(4 below stack pointer 8) is replaced by the stack pointer. -/
theorem getfp_contract_witness :
    GetFP (some ⟨16, 8⟩) = 16 ∧ GetFP (some ⟨4, 8⟩) = 8 :=
  ⟨(getfp_contract.2 ⟨16, 8⟩).1 (by decide) (by decide),
   (getfp_contract.2 ⟨4, 8⟩).2 (Or.inl (by decide))⟩

/-- Stack used against the unconditional strict-mode monotonicity
claim: the word at frame 64 points down to address 8, and a signal
context whose GetFP value is also 8 makes the validator skip the
strict checks for that candidate. -/
def skipCtxEnv : Env := ⟨fun a => if a = 64 then 8 else 0, fun _ => true⟩

/-- C2 counterexample: with a signal context present whose GetFP value
(registers bp = sp = 8) equals the candidate, the strict-mode validator
accepts the transition from frame 64 down to frame 8, which violates
address(B) > address(A). -/
theorem strict_skip_context_counterexample :
    NextStackFrame true true skipCtxEnv 64 (some ⟨8, 8⟩) = some 8 ∧
    ¬ (64 < 8) :=
  ⟨by decide, by decide⟩

/-- C2 amended: in strict mode, every accepted transition whose
candidate does not match GetFP of a supplied signal context (in
particular whenever the context flag is off or the context is absent)
moves to a strictly greater address at most kMaxFrameBytes away; when
the candidate equals GetFP of a present context, only the lax checks
apply and monotonicity can fail. -/
theorem strict_accepted_transition_monotone (withContext : Bool)
    (env : Env) (uc : Option SigCtx) (old_fp new_fp : Nat)
    (hcond : withContext = false ∨ uc = none ∨ env.mem old_fp ≠ GetFP uc)
    (h : NextStackFrame true withContext env old_fp uc = some new_fp) :
    old_fp < new_fp ∧ new_fp - old_fp ≤ kMaxFrameBytes := by
  simp only [NextStackFrame] at h
  rw [if_pos (show True ∧
      (withContext = false ∨ uc = none ∨ env.mem old_fp ≠ GetFP uc) from
      ⟨trivial, hcond⟩)] at h
  by_cases h1 : env.mem old_fp ≤ old_fp
  · rw [if_pos h1] at h
    exact absurd h (by simp)
  · rw [if_neg h1] at h
    by_cases h2 : kMaxFrameBytes < env.mem old_fp - old_fp
    · rw [if_pos h2] at h
      exact absurd h (by simp)
    · rw [if_neg h2] at h
      have hval : env.mem old_fp = new_fp := by
        by_cases ha : env.mem old_fp % wordSize ≠ 0
        · rw [if_pos ha] at h
          exact absurd h (by simp)
        · rw [if_neg ha] at h
          rw [if_neg (by simp)] at h
          exact Option.some.inj h
      rw [hval] at h1 h2
      omega

/-- Witness for C2 amended: a strict step with no context from frame 8
to frame 16 is monotone and within the bound. -/
theorem strict_accepted_transition_monotone_witness :
    8 < 16 ∧ 16 - 8 ≤ kMaxFrameBytes :=
  strict_accepted_transition_monotone false
    ⟨fun a => if a = 8 then 16 else 0, fun _ => true⟩ none 8 16
    (Or.inl rfl) (by decide)

/-- Two-frame cycle in stack memory: the word at address 8 points to 16
and the word at 16 points back to 8; every address is aligned and
readable. -/
def cycleEnv : Env :=
  ⟨fun a => if a = 8 then 16 else if a = 16 then 8 else 0, fun _ => true⟩

/-- Alternation along a two-frame cycle: if one step maps a to b and b
to a, every iterate starting from either node stays in the pair. -/
theorem iterFP_two_cycle (strict withContext : Bool) (env : Env)
    (uc : Option SigCtx) (a b : Nat)
    (hab : nsfVal strict withContext env a uc = b)
    (hba : nsfVal strict withContext env b uc = a) :
    ∀ k, (iterFP strict withContext env uc k a = a ∨
           iterFP strict withContext env uc k a = b) ∧
         (iterFP strict withContext env uc k b = a ∨
           iterFP strict withContext env uc k b = b) := by
  intro k
  induction k with
  | zero => exact ⟨Or.inl rfl, Or.inr rfl⟩
  | succ k ih =>
    simp only [iterFP]
    rw [hab, hba]
    exact ⟨ih.2, ih.1⟩

/-- C3 counterexample: on the two-frame cycle 8 -> 16 -> 8 the lax
validator accepts every step (each candidate is non-null, differs from
the current frame, is aligned and readable), so the walk never reaches
a step where the validator returns none. -/
theorem lax_two_frame_cycle_counterexample :
    NextStackFrame false false cycleEnv 8 none = some 16 ∧
    NextStackFrame false false cycleEnv 16 none = some 8 ∧
    (8 : Nat) ≠ 16 ∧
    ¬ stopsAtSomeStep false false cycleEnv none 8 := by
  refine ⟨by decide, by decide, by decide, ?_⟩
  rintro ⟨k, hk⟩
  have hab : nsfVal false false cycleEnv 8 none = 16 := by decide
  have hba : nsfVal false false cycleEnv 16 none = 8 := by decide
  rcases (iterFP_two_cycle false false cycleEnv none 8 16 hab hba k).1
    with h | h
  · rw [h] at hk
    exact absurd hk (by decide)
  · rw [h] at hk
    exact absurd hk (by decide)

/-- Candidates at or below the current frame are rejected by the strict
checks when no context is supplied. -/
theorem strict_nonmono_stops (withContext : Bool) (env : Env) (x : Nat)
    (h : env.mem x ≤ x) :
    NextStackFrame true withContext env x none = none := by
  simp only [NextStackFrame]
  rw [if_pos (show True ∧
      (withContext = false ∨ True ∨ env.mem x ≠ GetFP none) from
      ⟨trivial, Or.inr (Or.inl trivial)⟩)]
  rw [if_pos h]

/-- C3 amended: the strict checks (with no signal context) stop every
two-frame cycle at one of its two nodes; the lax checks only reject a
null or unchanged candidate, so they do not stop a two-frame cycle and
termination in that mode comes from the driver's max_depth bound and
kMaxUnwind cap instead. -/
theorem strict_two_frame_cycle_stops (withContext : Bool) (env : Env)
    (a b : Nat) (hab : env.mem a = b) (hba : env.mem b = a) (_hne : a ≠ b) :
    NextStackFrame true withContext env a none = none ∨
    NextStackFrame true withContext env b none = none := by
  rcases Nat.lt_or_ge a b with h | h
  · right
    apply strict_nonmono_stops
    rw [hba]
    omega
  · left
    apply strict_nonmono_stops
    rw [hab]
    omega

/-- Witness for C3 amended at the concrete cycle 8 -> 16 -> 8: the
strict walk stops at one of the two nodes. -/
theorem strict_two_frame_cycle_stops_witness :
    NextStackFrame true false cycleEnv 8 none = none ∨
    NextStackFrame true false cycleEnv 16 none = none :=
  strict_two_frame_cycle_stops false cycleEnv 8 16 (by decide) (by decide)
    (by decide)

/-! Closed-form characterizations of the validator in the two modes. -/

/-- Strict-mode validator with no signal context: the candidate read
from old is accepted exactly when it is strictly above old, within
kMaxFrameBytes and word aligned (the readability probe is skipped). -/
theorem NextStackFrame_strict_none (withContext : Bool) (env : Env)
    (old : Nat) :
    NextStackFrame true withContext env old none =
      (if old < env.mem old ∧ env.mem old - old ≤ kMaxFrameBytes ∧
          env.mem old % wordSize = 0
       then some (env.mem old) else none) := by
  simp only [NextStackFrame]
  split_ifs <;> first
    | rfl
    | tauto
    | omega

/-- Lax-mode validator: the candidate read from old is accepted exactly
when it is non-null, different from old, word aligned and readable. -/
theorem NextStackFrame_lax (withContext : Bool) (env : Env) (old : Nat)
    (uc : Option SigCtx) :
    NextStackFrame false withContext env old uc =
      (if env.mem old ≠ 0 ∧ env.mem old ≠ old ∧ env.mem old % wordSize = 0 ∧
          env.readable (env.mem old) = true
       then some (env.mem old) else none) := by
  simp only [NextStackFrame]
  split_ifs <;> first
    | rfl
    | tauto
    | omega
    | simp_all

/-! Well-formed frame chains, used to state the scenario-style claims. -/

/-- A well-formed stack of M frames in env: frame i lives at address
f i; consecutive frames are linked through memory, strictly increasing
by at most kMaxFrameBytes, word aligned, non-null and readable, every
return-address slot is non-null, and the last frame stores a null frame
pointer, terminating the chain. -/
structure Chain (env : Env) (f : Nat → Nat) (M : Nat) : Prop where
  link : ∀ i, i + 1 < M → env.mem (f i) = f (i + 1)
  mono : ∀ i, i + 1 < M → f i < f (i + 1)
  gap : ∀ i, i + 1 < M → f (i + 1) - f i ≤ kMaxFrameBytes
  align : ∀ i, i < M → f i % wordSize = 0
  nz : ∀ i, i < M → f i ≠ 0
  readf : ∀ i, i < M → env.readable (f i) = true
  ret : ∀ i, i < M → env.mem (f i + wordSize) ≠ 0
  stop : ∀ i, i + 1 = M → env.mem (f i) = 0

/-- Frame address of the chain extended with its terminator: the null
pointer once the index passes the last frame. -/
def Fc (f : Nat → Nat) (M i : Nat) : Nat := if i < M then f i else 0

/-- Frame size the unwinder records at chain index i: the distance to
the next frame when one exists, otherwise 0. -/
def chainSz (f : Nat → Nat) (M i : Nat) : Nat :=
  if i + 1 < M then f (i + 1) - f i else 0

/-- One validator step along a chain, in either mode: from frame i the
validator yields the next frame address, or the null value at the
terminator. -/
theorem chain_step {env : Env} {f : Nat → Nat} {M : Nat}
    (hc : Chain env f M) (isStackFrames withContext : Bool) {i : Nat}
    (hi : i < M) :
    nsfVal (!isStackFrames) withContext env (f i) none = Fc f M (i + 1) := by
  by_cases hnext : i + 1 < M
  · have hlink := hc.link i hnext
    rw [Fc, if_pos hnext]
    cases isStackFrames
    · simp only [Bool.not_false, nsfVal, NextStackFrame_strict_none, hlink]
      rw [if_pos ⟨hc.mono i hnext, hc.gap i hnext, hc.align (i + 1) hnext⟩]
      rfl
    · simp only [Bool.not_true, nsfVal, NextStackFrame_lax, hlink]
      rw [if_pos ⟨hc.nz (i + 1) hnext, (hc.mono i hnext).ne',
        hc.align (i + 1) hnext, hc.readf (i + 1) hnext⟩]
      rfl
  · have hstop : env.mem (f i) = 0 := hc.stop i (by omega)
    rw [Fc, if_neg hnext]
    cases isStackFrames
    · simp only [Bool.not_false, nsfVal, NextStackFrame_strict_none, hstop]
      rw [if_neg (by omega)]
      rfl
    · simp only [Bool.not_true, nsfVal, NextStackFrame_lax, hstop]
      rw [if_neg (by simp)]
      rfl

/-- Size entry the capture loop records at chain index i. -/
theorem chain_record_size {env : Env} {f : Nat → Nat} {M : Nat}
    (hc : Chain env f M) (isStackFrames withContext : Bool) {i : Nat}
    (hi : i < M) :
    (if f i < nsfVal (!isStackFrames) withContext env (f i) none
     then nsfVal (!isStackFrames) withContext env (f i) none - f i else 0)
      = chainSz f M i := by
  rw [chain_step hc isStackFrames withContext hi]
  by_cases h : i + 1 < M
  · rw [Fc, if_pos h, chainSz, if_pos h, if_pos (hc.mono i h)]
  · rw [Fc, if_neg h, chainSz, if_neg h, if_neg (by omega)]

/-- Behaviour of the capture loop along a well-formed chain: starting
at chain index i with d frames still to capture and s frames still to
skip, the loop outputs the return addresses of frames i+s .. i+s+d-1,
the matching frame sizes when recording is on, and stops with fp at
chain index i+s+d. -/
theorem unwindLoop_chain {env : Env} {f : Nat → Nat} {M : Nat}
    (hc : Chain env f M) (isStackFrames withContext : Bool) :
    ∀ fuel d s i, i + s + d ≤ M → d + s ≤ fuel → (d = 0 → s = 0) →
      unwindLoop (!isStackFrames) isStackFrames withContext env none
          (Fc f M i) d s fuel =
        ⟨(List.range d).map (fun j => env.mem (f (i + s + j) + wordSize)),
         if isStackFrames = true then
           (List.range d).map (fun j => chainSz f M (i + s + j))
         else [],
         Fc f M (i + s + d)⟩ := by
  intro fuel
  induction fuel with
  | zero =>
    intro d s i hM hf hds
    have hd : d = 0 := by omega
    have hs : s = 0 := by omega
    subst hd; subst hs
    rw [unwindLoop_fuel_zero]
    simp
  | succ fuel ih =>
    intro d s i hM hf hds
    by_cases hiM : i < M
    · rw [show Fc f M i = f i from if_pos hiM]
      by_cases hd : d = 0
      · have hs : s = 0 := hds hd
        subst hd; subst hs
        rw [unwindLoop_stop fuel (Or.inr rfl)]
        simp only [List.range_zero, List.map_nil]
        rw [show i + 0 + 0 = i from by omega]
        rw [show Fc f M i = f i from if_pos hiM]
        split <;> rfl
      · have h1 : ¬(f i = 0 ∨ d = 0) := by
          rintro (h | h)
          · exact hc.nz i hiM h
          · exact hd h
        have h2 : env.mem (f i + wordSize) ≠ 0 := hc.ret i hiM
        by_cases hs : s = 0
        · subst hs
          rw [unwindLoop_record fuel h1 h2]
          rw [show nsfVal (!isStackFrames) withContext env (f i) none
              = Fc f M (i + 1) from chain_step hc isStackFrames withContext hiM]
          rw [ih (d - 1) 0 (i + 1) (by omega) (by omega) (fun _ => rfl)]
          have hidx : ∀ j : Nat, i + 1 + 0 + j = i + 0 + (j + 1) := by
            intro j; omega
          obtain ⟨d', rfl⟩ : ∃ d', d = d' + 1 :=
            ⟨d - 1, by omega⟩
          simp only [Nat.add_sub_cancel]
          simp only [LoopOut.mk.injEq]
          refine ⟨?_, ?_, ?_⟩
          · rw [List.range_succ_eq_map, List.map_cons, List.map_map]
            refine congrArg₂ List.cons ?_ ?_
            · rw [show i + 0 + 0 = i from by omega]
            · refine List.map_congr_left ?_
              intro j _
              simp only [Function.comp_apply]
              rw [hidx j]
          · by_cases hsf : isStackFrames = true
            · rw [if_pos hsf, if_pos hsf, if_pos hsf]
              rw [List.range_succ_eq_map, List.map_cons, List.map_map]
              refine congrArg₂ List.cons ?_ ?_
              · rw [show i + 0 + 0 = i from by omega]
                by_cases hn : i + 1 < M
                · rw [show Fc f M (i + 1) = f (i + 1) from if_pos hn]
                  rw [chainSz, if_pos hn, if_pos (hc.mono i hn)]
                · rw [show Fc f M (i + 1) = 0 from if_neg hn]
                  rw [chainSz, if_neg hn, if_neg (by omega)]
              · refine List.map_congr_left ?_
                intro j _
                simp only [Function.comp_apply]
                rw [hidx j]
            · rw [if_neg hsf, if_neg hsf, if_neg hsf]
          · rw [show i + 1 + 0 + d' = i + 0 + (d' + 1) from by omega]
        · rw [unwindLoop_skip fuel h1 h2 hs]
          rw [show nsfVal (!isStackFrames) withContext env (f i) none
              = Fc f M (i + 1) from chain_step hc isStackFrames withContext hiM]
          rw [ih d (s - 1) (i + 1) (by omega) (by omega) (fun h => absurd h hd)]
          have hidx : ∀ j : Nat, i + 1 + (s - 1) + j = i + s + j := by
            intro j; omega
          simp only [LoopOut.mk.injEq]
          refine ⟨?_, ?_, ?_⟩
          · refine List.map_congr_left ?_
            intro j _
            rw [hidx j]
          · by_cases hsf : isStackFrames = true
            · rw [if_pos hsf, if_pos hsf]
              refine List.map_congr_left ?_
              intro j _
              rw [hidx j]
            · rw [if_neg hsf, if_neg hsf]
          · rw [show i + 1 + (s - 1) + d = i + s + d from by omega]
    · have hiM2 : i = M := by omega
      have hd : d = 0 := by omega
      have hs : s = 0 := by omega
      subst hd; subst hs
      rw [show Fc f M i = 0 from if_neg hiM]
      rw [unwindLoop_stop fuel (Or.inl rfl)]
      simp only [List.range_zero, List.map_nil]
      rw [show Fc f M (i + 0 + 0) = 0 from by
        rw [Fc, if_neg (by omega)]]
      split <;> rfl

/-- The concrete three-frame stack chainEnv is a well-formed chain on
the frame addresses chainF. -/
theorem chainEnv_chain : Chain chainEnv chainF 3 where
  link := by
    intro i hi
    have h : i < 2 := by omega
    interval_cases i <;> decide
  mono := by
    intro i hi
    have h : i < 2 := by omega
    interval_cases i <;> decide
  gap := by
    intro i hi
    have h : i < 2 := by omega
    interval_cases i <;> decide
  align := by intro i hi; interval_cases i <;> decide
  nz := by intro i hi; interval_cases i <;> decide
  readf := by intro i hi; interval_cases i <;> decide
  ret := by intro i hi; interval_cases i <;> decide
  stop := by
    intro i hi
    have h : i = 2 := by omega
    subst h
    decide

/-- C4: skipped frames are omitted without counting toward max_depth:
on a well-formed stack with at least skip_count + max_depth frames, the
unwinder still records exactly max_depth return addresses, those of the
walk frames skip_count .. skip_count + max_depth - 1, that is, starting
at the (skip_count+1)-th frame of the walk. -/
theorem skip_count_frames_omitted (isStackFrames isWithContext : Bool)
    (env : Env) (f : Nat → Nat) (M : Nat) (hc : Chain env f M)
    (maxDepth skip : Nat) (hframes : skip + maxDepth ≤ M)
    (wantDropped : Bool) :
    (UnwindImpl isStackFrames isWithContext env none (f 0) maxDepth skip
        wantDropped).addrs
      = (List.range maxDepth).map
          (fun j => env.mem (f (skip + j) + wordSize)) := by
  by_cases hd : maxDepth = 0
  · subst hd
    have hlen := (unwind_count_within_max_depth isStackFrames isWithContext
      env none (f 0) 0 skip wantDropped).1
    simp only [List.range_zero, List.map_nil]
    exact List.eq_nil_of_length_eq_zero (Nat.le_zero.mp hlen)
  · have hM : 0 < M := by omega
    have hmain := unwindLoop_chain hc isStackFrames isWithContext
      (maxDepth + skip) maxDepth skip 0 (by omega) (by omega)
      (fun h => absurd h hd)
    rw [show Fc f M 0 = f 0 from if_pos hM] at hmain
    show (unwindLoop (!isStackFrames) isStackFrames isWithContext env none
      (f 0) maxDepth skip (maxDepth + skip)).addrs = _
    rw [hmain]
    refine List.map_congr_left ?_
    intro j _
    rw [show 0 + skip + j = skip + j from by omega]

/-- Witness for C4 on the concrete three-frame stack: with skip 1 and
max_depth 1 the unwinder records exactly the second walked frame's
return address. -/
theorem skip_count_frames_omitted_witness :
    (UnwindImpl false false chainEnv none (chainF 0) 1 1 false).addrs
      = (List.range 1).map
          (fun j => chainEnv.mem (chainF (1 + j) + wordSize)) :=
  skip_count_frames_omitted false false chainEnv chainF 3 chainEnv_chain 1 1
    (by decide) false

/-! The dropped-frame counting loop. -/

theorem dropLoop_zero_fp (strict withContext : Bool) (env : Env)
    (uc : Option SigCtx) (fuel : Nat) :
    dropLoop strict withContext env uc 0 fuel = 0 := by
  cases fuel <;> rfl

theorem dropLoop_le (strict withContext : Bool) (env : Env)
    (uc : Option SigCtx) :
    ∀ fuel fp, dropLoop strict withContext env uc fp fuel ≤ fuel := by
  intro fuel
  induction fuel with
  | zero => intro fp; exact Nat.le_refl 0
  | succ fuel ih =>
    intro fp
    simp only [dropLoop]
    by_cases h : fp = 0
    · rw [if_pos h]
      omega
    · rw [if_neg h]
      have := ih (nsfVal strict withContext env fp uc)
      omega

/-- Along a well-formed chain the counting loop takes at least one step
per remaining frame, up to its fuel. -/
theorem dropLoop_chain_ge {env : Env} {f : Nat → Nat} {M : Nat}
    (hc : Chain env f M) (isStackFrames withContext : Bool) :
    ∀ fuel i, i < M →
      min (M - i) fuel
        ≤ dropLoop (!isStackFrames) withContext env none (f i) fuel := by
  intro fuel
  induction fuel with
  | zero => intro i hi; simp
  | succ fuel ih =>
    intro i hi
    simp only [dropLoop]
    rw [if_neg (hc.nz i hi)]
    rw [show nsfVal (!isStackFrames) withContext env (f i) none
        = Fc f M (i + 1) from chain_step hc isStackFrames withContext hi]
    by_cases hn : i + 1 < M
    · rw [show Fc f M (i + 1) = f (i + 1) from if_pos hn]
      have := ih (i + 1) hn
      omega
    · have h1 : M - i = 1 := by omega
      omega

/-- Value UnwindImpl stores through a non-null min_dropped_frames. -/
theorem UnwindImpl_dropped_eq (isStackFrames isWithContext : Bool)
    (env : Env) (uc : Option SigCtx) (fp0 maxDepth skip : Nat) :
    (UnwindImpl isStackFrames isWithContext env uc fp0 maxDepth skip
      true).dropped
      = some (dropLoop (!isStackFrames) isWithContext env uc
          (unwindLoop (!isStackFrames) isStackFrames isWithContext env uc fp0
            maxDepth skip (maxDepth + skip)).finalFp kMaxUnwind) := rfl

/-- C6: when a dropped-frame count is requested, UnwindImpl always
stores one; the stored count j satisfies j ≤ kMaxUnwind; j = 0 when the
capture loop ended with no frame pointer left; and on a well-formed
stack of M frames walked with max_depth k < M and no skipping, j is at
least M - k up to the kMaxUnwind cap. -/
theorem dropped_frames_counted (isStackFrames isWithContext : Bool)
    (env : Env) (uc : Option SigCtx) (fp0 maxDepth skip : Nat)
    (f : Nat → Nat) (M k : Nat) (hc : Chain env f M) (hk : k < M) :
    ((UnwindImpl isStackFrames isWithContext env uc fp0 maxDepth skip
        true).dropped ≠ none ∧
      (UnwindImpl isStackFrames isWithContext env uc fp0 maxDepth skip
        true).dropped.getD 0 ≤ kMaxUnwind) ∧
    ((unwindLoop (!isStackFrames) isStackFrames isWithContext env uc fp0
        maxDepth skip (maxDepth + skip)).finalFp = 0 →
      (UnwindImpl isStackFrames isWithContext env uc fp0 maxDepth skip
        true).dropped = some 0) ∧
    min (M - k) kMaxUnwind ≤
      (UnwindImpl isStackFrames isWithContext env none (f 0) k 0
        true).dropped.getD 0 := by
  refine ⟨⟨?_, ?_⟩, ?_, ?_⟩
  · rw [UnwindImpl_dropped_eq]
    exact Option.some_ne_none _
  · rw [UnwindImpl_dropped_eq]
    simp only [Option.getD_some]
    exact dropLoop_le (!isStackFrames) isWithContext env uc kMaxUnwind _
  · intro hz
    rw [UnwindImpl_dropped_eq, hz, dropLoop_zero_fp]
  · have hM : 0 < M := by omega
    have hmain := unwindLoop_chain hc isStackFrames isWithContext (k + 0) k 0 0
      (by omega) (by omega) (fun _ => rfl)
    rw [show Fc f M 0 = f 0 from if_pos hM] at hmain
    rw [UnwindImpl_dropped_eq]
    simp only [Option.getD_some]
    rw [hmain]
    show min (M - k) kMaxUnwind ≤ dropLoop (!isStackFrames) isWithContext env
      none (Fc f M (0 + 0 + k)) kMaxUnwind
    rw [show 0 + 0 + k = k from by omega]
    rw [show Fc f M k = f k from if_pos hk]
    exact dropLoop_chain_ge hc isStackFrames isWithContext kMaxUnwind k hk

/-- Witness for C6 on the concrete three-frame stack: a walk of all
frames ends with a null fp and dropped count 0; a walk with max_depth 1
reports at least the 2 frames it dropped. -/
theorem dropped_frames_counted_witness :
    ((UnwindImpl false false chainEnv none 16 5 0 true).dropped ≠ none ∧
      (UnwindImpl false false chainEnv none 16 5 0
        true).dropped.getD 0 ≤ kMaxUnwind) ∧
    ((unwindLoop (!false) false false chainEnv none 16 5 0
        (5 + 0)).finalFp = 0 →
      (UnwindImpl false false chainEnv none 16 5 0 true).dropped = some 0) ∧
    min (3 - 1) kMaxUnwind ≤
      (UnwindImpl false false chainEnv none (chainF 0) 1 0
        true).dropped.getD 0 :=
  dropped_frames_counted false false chainEnv none 16 5 0 chainF 3 1
    chainEnv_chain (by decide)

/-! Frame sizes as a function of the per-frame validator result. -/

/-- Size entry the loop computes, expressed by cases on the validator
result at the recorded frame. -/
theorem size_entry_eq (strict withContext : Bool) (env : Env)
    (uc : Option SigCtx) (g : Nat) :
    (if g < nsfVal strict withContext env g uc
     then nsfVal strict withContext env g uc - g else 0)
      = match NextStackFrame strict withContext env g uc with
        | some nx => if g < nx then nx - g else 0
        | none => 0 := by
  cases h : NextStackFrame strict withContext env g uc with
  | none => simp [nsfVal, h]
  | some v => simp [nsfVal, h]

/-- The sizes list of the capture loop, entry by entry: entry j is
computed from the validator result at the j-th recorded frame, which is
the (s+j)-th frame of the walk. -/
theorem unwindLoop_sizes_iter (strict withContext : Bool) (env : Env)
    (uc : Option SigCtx) :
    ∀ fuel fp d s,
      (unwindLoop strict true withContext env uc fp d s fuel).sizes
        = (List.range
            (unwindLoop strict true withContext env uc fp d s
              fuel).addrs.length).map
            (fun j =>
              match NextStackFrame strict withContext env
                  (iterFP strict withContext env uc (s + j) fp) uc with
              | some nx =>
                  if iterFP strict withContext env uc (s + j) fp < nx
                  then nx - iterFP strict withContext env uc (s + j) fp
                  else 0
              | none => 0) := by
  intro fuel
  induction fuel with
  | zero =>
    intro fp d s
    rw [unwindLoop_fuel_zero]
    rfl
  | succ fuel ih =>
    intro fp d s
    by_cases h1 : fp = 0 ∨ d = 0
    · rw [unwindLoop_stop fuel h1]
      rfl
    · by_cases h2 : env.mem (fp + wordSize) = 0
      · rw [unwindLoop_nullret fuel h1 h2]
        rfl
      · by_cases hs : s = 0
        · subst hs
          rw [unwindLoop_record fuel h1 h2]
          rw [if_pos rfl]
          simp only [List.length_cons]
          rw [List.range_succ_eq_map, List.map_cons, List.map_map]
          refine congrArg₂ List.cons ?_ ?_
          · exact size_entry_eq strict withContext env uc fp
          · rw [ih (nsfVal strict withContext env fp uc) (d - 1) 0]
            refine List.map_congr_left ?_
            intro j _
            rfl
        · rw [unwindLoop_skip fuel h1 h2 hs]
          rw [ih (nsfVal strict withContext env fp uc) d (s - 1)]
          refine List.map_congr_left ?_
          intro j _
          have hidx : s + j = ((s - 1) + j) + 1 := by omega
          rw [hidx]
          rfl

/-- C5: when frame-size recording is enabled, the sizes written are
determined frame by frame by the validator: entry j equals the byte
distance from the j-th recorded frame to the validator's next frame
when that next frame is at a strictly higher address, and 0 otherwise
(validator returned none, or a frame not strictly above). -/
theorem frame_sizes_exact (isWithContext : Bool) (env : Env)
    (uc : Option SigCtx) (fp0 maxDepth skip : Nat) (wantDropped : Bool) :
    (UnwindImpl true isWithContext env uc fp0 maxDepth skip
      wantDropped).sizes
      = (List.range (UnwindImpl true isWithContext env uc fp0 maxDepth skip
          wantDropped).addrs.length).map
          (fun j =>
            match NextStackFrame false isWithContext env
                (iterFP false isWithContext env uc (skip + j) fp0) uc with
            | some nx =>
                if iterFP false isWithContext env uc (skip + j) fp0 < nx
                then nx - iterFP false isWithContext env uc (skip + j) fp0
                else 0
            | none => 0) :=
  unwindLoop_sizes_iter false isWithContext env uc (maxDepth + skip) fp0
    maxDepth skip

/-! The vsyscall prologue decoder. -/

/-- Shape of the instruction starting at a two-byte window, in the
style of the design note's tagged classifier. -/
inductive Shape
  | movEspEbp
  | movOther
  | syscallEntry
  | pushReg
  | int80
  | invalid
deriving DecidableEq

/-- Classify the instruction starting at bytes b0 b1. -/
def classify (b0 b1 : Nat) : Shape :=
  if b0 = 0x89 then (if b1 = 0xE5 then .movEspEbp else .movOther)
  else if b0 = 0x0F ∧ (b1 = 0x34 ∨ b1 = 0x05) then .syscallEntry
  else if b0 &&& 0xF0 = 0x50 then .pushReg
  else if b0 = 0xCD ∧ b1 = 0x80 then .int80
  else .invalid

/-- Decoder scan exactly as the claim words it: four shapes only, so a
0x89 byte whose successor is not 0xE5 falls into the invalid case, an
assertion failure. -/
def claimScan (bytes : Nat → Nat) : Nat → Nat → Nat → Option Nat
  | _, _, 0 => none
  | i, result, budget + 1 =>
    match classify (bytes i) (bytes (i + 1)) with
    | .movEspEbp => some 0
    | .movOther => none
    | .syscallEntry => some result
    | .pushReg => claimScan bytes (i + 1) (result + 1) budget
    | .int80 => if result = 0 then some 0 else none
    | .invalid => none

/-- Top-level form of the claim's four-shape decoder. -/
def claimCountPush (bytes : Nat → Nat) : Option Nat :=
  claimScan bytes 0 0 kMaxBytes

/-- Decoder scan with the fifth shape restored: a generic two-byte mov
between registers consumes both bytes and continues with the count
unchanged. -/
def amendedScan (bytes : Nat → Nat) : Nat → Nat → Nat → Option Nat
  | _, _, 0 => none
  | i, result, budget + 1 =>
    if classify (bytes i) (bytes (i + 1)) = .movEspEbp then some 0
    else if classify (bytes i) (bytes (i + 1)) = .movOther then
      match budget with
      | 0 => none
      | b + 1 => amendedScan bytes (i + 2) result b
    else if classify (bytes i) (bytes (i + 1)) = .syscallEntry then
      some result
    else if classify (bytes i) (bytes (i + 1)) = .pushReg then
      amendedScan bytes (i + 1) (result + 1) budget
    else if classify (bytes i) (bytes (i + 1)) = .int80 then
      (if result = 0 then some 0 else none)
    else none

/-- Top-level form of the five-shape decoder. -/
def amendedCountPush (bytes : Nat → Nat) : Option Nat :=
  amendedScan bytes 0 0 kMaxBytes

/-- Instruction bytes of the documented AMD __kernel_vsyscall sequence:
push %ebp; mov %ecx,%ebp; syscall. -/
def amdBytes : Nat → Nat := fun i =>
  if i = 0 then 0x55 else if i = 1 then 0x89 else if i = 2 then 0xCD
  else if i = 3 then 0x0F else if i = 4 then 0x05 else 0

/-- C9 counterexample: on the documented AMD vsyscall prologue the
decoder skips the generic mov %ecx,%ebp and returns push count 1, while
the claim's four-shape reading hits its invalid case, an assertion
failure, at the 0x89 byte. -/
theorem count_push_four_shapes_counterexample :
    CountPushInstructions amdBytes = some 1 ∧
    claimCountPush amdBytes = none :=
  ⟨by decide, by decide⟩

/-- One unfolding step of the decoder loop. -/
theorem countPushAux_succ (bytes : Nat → Nat) (i result b : Nat) :
    countPushAux bytes i result (b + 1)
      = if bytes i = 0x89 then
          (if bytes (i + 1) = 0xE5 then some 0
           else
             match b with
             | 0 => none
             | b2 + 1 => countPushAux bytes (i + 2) result b2)
        else if bytes i = 0x0F ∧
            (bytes (i + 1) = 0x34 ∨ bytes (i + 1) = 0x05) then some result
        else if bytes i &&& 0xF0 = 0x50 then
          countPushAux bytes (i + 1) (result + 1) b
        else if bytes i = 0xCD ∧ bytes (i + 1) = 0x80 then
          (if result = 0 then some 0 else none)
        else none := by
  rw [countPushAux.eq_def]

/-- One unfolding step of the five-shape scan. -/
theorem amendedScan_succ (bytes : Nat → Nat) (i result b : Nat) :
    amendedScan bytes i result (b + 1)
      = (if classify (bytes i) (bytes (i + 1)) = .movEspEbp then some 0
         else if classify (bytes i) (bytes (i + 1)) = .movOther then
           (match b with
            | 0 => none
            | b2 + 1 => amendedScan bytes (i + 2) result b2)
         else if classify (bytes i) (bytes (i + 1)) = .syscallEntry then
           some result
         else if classify (bytes i) (bytes (i + 1)) = .pushReg then
           amendedScan bytes (i + 1) (result + 1) b
         else if classify (bytes i) (bytes (i + 1)) = .int80 then
           (if result = 0 then some 0 else none)
         else none) := by
  rw [amendedScan.eq_def]

/-- The decoder agrees step by step with the five-shape scan. -/
theorem countPushAux_eq_amendedScan (bytes : Nat → Nat) :
    ∀ budget i result,
      countPushAux bytes i result budget
        = amendedScan bytes i result budget := by
  intro budget
  induction budget using Nat.strong_induction_on with
  | _ budget ih =>
    intro i result
    cases budget with
    | zero => rfl
    | succ b =>
      rw [countPushAux_succ, amendedScan_succ]
      by_cases h89 : bytes i = 0x89
      · by_cases hE5 : bytes (i + 1) = 0xE5
        · have hcl : classify (bytes i) (bytes (i + 1)) = .movEspEbp := by
            simp only [classify]
            rw [if_pos h89, if_pos hE5]
          rw [if_pos h89, if_pos hE5, hcl, if_pos rfl]
        · have hcl : classify (bytes i) (bytes (i + 1)) = .movOther := by
            simp only [classify]
            rw [if_pos h89, if_neg hE5]
          rw [if_pos h89, if_neg hE5, hcl, if_neg (by decide), if_pos rfl]
          cases b with
          | zero => rfl
          | succ b2 => exact ih b2 (by omega) (i + 2) result
      · by_cases h0F : bytes i = 0x0F ∧
            (bytes (i + 1) = 0x34 ∨ bytes (i + 1) = 0x05)
        · have hcl : classify (bytes i) (bytes (i + 1)) = .syscallEntry := by
            simp only [classify]
            rw [if_neg h89, if_pos h0F]
          rw [if_neg h89, if_pos h0F, hcl, if_neg (by decide),
            if_neg (by decide), if_pos rfl]
        · by_cases hpush : bytes i &&& 0xF0 = 0x50
          · have hcl : classify (bytes i) (bytes (i + 1)) = .pushReg := by
              simp only [classify]
              rw [if_neg h89, if_neg h0F, if_pos hpush]
            rw [if_neg h89, if_neg h0F, if_pos hpush, hcl,
              if_neg (by decide), if_neg (by decide), if_neg (by decide),
              if_pos rfl]
            exact ih b (by omega) (i + 1) (result + 1)
          · by_cases hint : bytes i = 0xCD ∧ bytes (i + 1) = 0x80
            · have hcl : classify (bytes i) (bytes (i + 1)) = .int80 := by
                simp only [classify]
                rw [if_neg h89, if_neg h0F, if_neg hpush, if_pos hint]
              rw [if_neg h89, if_neg h0F, if_neg hpush, if_pos hint, hcl,
                if_neg (show ¬(Shape.int80 = Shape.movEspEbp) from by decide),
                if_neg (show ¬(Shape.int80 = Shape.movOther) from by decide),
                if_neg (show ¬(Shape.int80 = Shape.syscallEntry) from
                  by decide),
                if_neg (show ¬(Shape.int80 = Shape.pushReg) from by decide),
                if_pos rfl]
            · have hcl : classify (bytes i) (bytes (i + 1)) = .invalid := by
                simp only [classify]
                rw [if_neg h89, if_neg h0F, if_neg hpush, if_neg hint]
              rw [if_neg h89, if_neg h0F, if_neg hpush, if_neg hint, hcl,
                if_neg (by decide), if_neg (by decide), if_neg (by decide),
                if_neg (by decide), if_neg (by decide)]

/-- C9 amended: the decoder recognizes five shapes, the four of the
claim plus a generic two-byte mov between registers (first byte 0x89,
second byte not 0xE5, as in the AMD syscall prologue), which consumes
both bytes and continues with the count unchanged; every other byte, or
an exhausted budget, is an assertion failure, and the int 0x80 shape
asserts that the count is still 0. -/
theorem count_push_five_shapes (bytes : Nat → Nat) :
    CountPushInstructions bytes = amendedCountPush bytes :=
  countPushAux_eq_amendedScan bytes kMaxBytes 0 0

/-- C10: validation strictness is not an independent caller choice:
UnwindImpl runs both the capture loop and the dropped-frame loop with
STRICT_UNWINDING equal to the negation of the frame-size flag, so
requesting sizes forces the lax checks (non-null, changed, aligned,
readable) and omitting them forces the strict checks (monotone within
kMaxFrameBytes, absent a matching context). -/
theorem strictness_tied_to_frame_sizes (isStackFrames isWithContext : Bool)
    (env : Env) (uc : Option SigCtx) (fp0 maxDepth skip : Nat)
    (wantDropped : Bool) :
    (UnwindImpl isStackFrames isWithContext env uc fp0 maxDepth skip
        wantDropped
      = ⟨(unwindLoop (!isStackFrames) isStackFrames isWithContext env uc fp0
            maxDepth skip (maxDepth + skip)).addrs,
         (unwindLoop (!isStackFrames) isStackFrames isWithContext env uc fp0
            maxDepth skip (maxDepth + skip)).sizes,
         if wantDropped then
           some (dropLoop (!isStackFrames) isWithContext env uc
             (unwindLoop (!isStackFrames) isStackFrames isWithContext env uc
               fp0 maxDepth skip (maxDepth + skip)).finalFp kMaxUnwind)
         else none⟩) ∧
    (isStackFrames = true →
      NextStackFrame (!isStackFrames) isWithContext env fp0 uc ≠ none →
        env.readable (nsfVal (!isStackFrames) isWithContext env fp0 uc) = true
        ∧ nsfVal (!isStackFrames) isWithContext env fp0 uc ≠ fp0
        ∧ nsfVal (!isStackFrames) isWithContext env fp0 uc ≠ 0) ∧
    (isStackFrames = false → uc = none →
      NextStackFrame (!isStackFrames) isWithContext env fp0 uc ≠ none →
        fp0 < nsfVal (!isStackFrames) isWithContext env fp0 uc
        ∧ nsfVal (!isStackFrames) isWithContext env fp0 uc - fp0
            ≤ kMaxFrameBytes) := by
  refine ⟨rfl, ?_, ?_⟩
  · intro hsf hne
    subst hsf
    rw [show (!true) = false from rfl] at hne ⊢
    rw [NextStackFrame_lax] at hne
    by_cases hcond : env.mem fp0 ≠ 0 ∧ env.mem fp0 ≠ fp0 ∧
        env.mem fp0 % wordSize = 0 ∧ env.readable (env.mem fp0) = true
    · have hval : nsfVal false isWithContext env fp0 uc = env.mem fp0 := by
        simp only [nsfVal]
        rw [NextStackFrame_lax, if_pos hcond]
        rfl
      rw [hval]
      exact ⟨hcond.2.2.2, hcond.2.1, hcond.1⟩
    · rw [if_neg hcond] at hne
      exact absurd rfl hne
  · intro hsf hquc hne
    subst hsf
    subst hquc
    rw [show (!false) = true from rfl] at hne ⊢
    obtain ⟨v, hv⟩ := Option.ne_none_iff_exists'.mp hne
    have hmono := strict_accepted_transition_monotone isWithContext env none
      fp0 v (Or.inr (Or.inl rfl)) hv
    rw [show nsfVal true isWithContext env fp0 none = v from by
      simp only [nsfVal]
      rw [hv]
      rfl]
    exact hmono

/-- Witness for C10 at the concrete cycle stack: with frame sizes
requested the lax step from frame 8 is readable, changed and non-null;
with sizes omitted the strict step from frame 8 is monotone within the
bound. -/
theorem strictness_tied_to_frame_sizes_witness :
    (cycleEnv.readable (nsfVal (!true) false cycleEnv 8 none) = true
      ∧ nsfVal (!true) false cycleEnv 8 none ≠ 8
      ∧ nsfVal (!true) false cycleEnv 8 none ≠ 0) ∧
    (8 < nsfVal (!false) false cycleEnv 8 none
      ∧ nsfVal (!false) false cycleEnv 8 none - 8 ≤ kMaxFrameBytes) :=
  ⟨(strictness_tied_to_frame_sizes true false cycleEnv none 8 5 0
      false).2.1 rfl (by decide),
   (strictness_tied_to_frame_sizes false false cycleEnv none 8 5 0
      false).2.2 rfl rfl (by decide)⟩

end StackTraceX86
